import Mathlib

/-!
A verification development for the core of the `mappazzone` game
(`src/mappazzone/{locations,board,options,game}.py`): a shallow embedding
of the board consistency/placement engine, the deck, the configuration
options and the turn state machine, together with theorems about the
documented properties of these components.

Conventions of the embedding:
* Python `int` values are modelled as `Int` (as `Nat` where the source
  only ever produces non-negative values, such as sizes and indices);
  Python `float` values are modelled as `Rat` (the source only compares,
  subtracts and round-trips the coordinate/tolerance values, which the
  rational model reflects).
* Python exceptions (`ValueError`, `AssertionError`, `IndexError`) are
  modelled by an explicit error type `Err`; a function that can raise
  returns `Except Err _`, and a stateful method that can raise after
  mutating returns the state reached when the exception propagates.
* `random.sample(range(n), k)` is modelled by passing the sampled list of
  indices explicitly; the guarantees of `random.sample` (distinct,
  in-range indices of the requested length) become hypotheses.
-/

deriving instance DecidableEq for Except

namespace Mappazzone

/-- Directions of geographical coordinates (`locations.Direction`). -/
inductive Direction where
  | LATITUDE
  | LONGITUDE
deriving DecidableEq, Repr, Inhabited

/-- Continent codes (`locations.Continent`; the language-dependent display
names are irrelevant to the core). -/
inductive Continent where
  | AN | AS | AF | EU | NA | OC | SA
deriving DecidableEq, Repr, Inhabited

/-- Information about a location (`locations.Location`, a frozen-hash
dataclass compared field by field). -/
structure Location where
  city : String
  city_ascii : String
  longitude : Rat
  latitude : Rat
  country : String
  country_iso2 : String
  country_iso3 : String
  population : Int
  identifier : Int
  continent : Continent
  capital : Bool := false
deriving DecidableEq, Repr, Inhabited

/-- The comparison `a - b ≤ c` on rationals, computed by integer
cross-multiplication so that it evaluates by reduction (`Rat`
subtraction is irreducible); `ratSubLe_iff` proves it equal to the
subtraction the source writes. -/
def ratSubLe (a b c : Rat) : Bool :=
  decide ((a.num * b.den - b.num * a.den) * c.den ≤ c.num * (a.den * b.den))

/-- `Location.before` from `locations.py`: along LONGITUDE, is `self`
west of `other` (within `tolerance` degrees): `self.longitude <
other.longitude or self.longitude - other.longitude <= tolerance`?
Along LATITUDE, is `self` north of `other` (within `tolerance` degrees):
`self.latitude > other.latitude or other.latitude - self.latitude <=
tolerance`?  (The subtraction comparisons are written via `ratSubLe`;
`before_eq` restates this definition with literal subtractions.) -/
def Location.before (self other : Location) (direction : Direction)
    (tolerance : Rat) : Bool :=
  match direction with
  | .LONGITUDE =>
      self.longitude < other.longitude ||
        ratSubLe self.longitude other.longitude tolerance
  | .LATITUDE =>
      self.latitude > other.latitude ||
        ratSubLe other.latitude self.latitude tolerance

/-- A witness of a violation of the board invariant (`board.Invalid`). -/
structure Invalid where
  direction : Direction
  x_1 : Nat
  y_1 : Nat
  x_2 : Nat
  y_2 : Nat
  loc1 : Location
  loc2 : Location
deriving DecidableEq, Repr

/-- Options for the board (`board.Board.BoardOptions`). -/
structure BoardOptions where
  size : Nat
  tolerance : Rat := 0
  wrap : Bool := false
  center_x : Nat := 0
  center_y : Nat := 0
deriving DecidableEq, Repr

/-- The game board (`board.Board`): `grid` is the column-major list of
columns, `grid[x][y]` the cell in column `x` and row `y`. -/
structure Board where
  grid : List (List (Option Location))
  opts : BoardOptions
deriving DecidableEq, Repr

namespace Board

/-- `Board.__init__`: normalize the requested size to the nearest odd
value `1 + 2 * (size / 2)`, allocate an empty `size × size` grid and seed
the center cell with `center`. -/
def init (center : Location) (options : BoardOptions) : Board :=
  let size_2 := options.size / 2
  let size := 1 + 2 * size_2
  let opts : BoardOptions :=
    { size := size, center_x := size_2, center_y := size_2,
      tolerance := options.tolerance, wrap := options.wrap }
  let emptyGrid := List.replicate size (List.replicate size (none : Option Location))
  { grid := emptyGrid.set size_2 ((List.replicate size (none : Option Location)).set size_2 (some center)),
    opts := opts }

/-- Read the raw grid cell `grid[x][y]` (no bounds check, like a Python
index access that is known to be in range). -/
def cell (b : Board) (x y : Nat) : Option Location :=
  (b.grid.getD x []).getD y none

/-- Overwrite the raw grid cell `grid[x][y]`. -/
def setCell (b : Board) (x y : Nat) (v : Option Location) : Board :=
  { b with grid := b.grid.set x ((b.grid.getD x []).set y v) }

end Board

/-- The kinds of exceptions the core raises (all `ValueError` or
`AssertionError` in the source; the constructors carry the data that the
source interpolates into the exception message). -/
inductive Err where
  | outOfBounds (x y : Int)
  | cellOccupied (x y : Int)
  | insufficientSupply (k n : Nat)
  | notFound (city : String)
  | notInHand (loc : Location) (player : String)
  | notYourTurn
  | swapNotAllowed
  | invalidOptionValue (name : String)
  | noPlayers
  | indexError
  | invalidLiteral (s : String)
  | assertionFailed
  | fuelExhausted
deriving DecidableEq, Repr

/-- Whether the exception is a Python `ValueError` (every raise in the
core is, except the `assert` statements, which raise `AssertionError`,
and indexing errors; `fuelExhausted` is an artifact of modelling the
`while` loop of `Game.pick` with fuel and never arises for well-formed
samples). -/
def Err.isValueError : Err → Bool
  | .assertionFailed => false
  | .indexError => false
  | .fuelExhausted => false
  | _ => true

namespace Board

/-- `Board.get`: the location at absolute coordinates `x`, `y`; fails if
`x` or `y` is out of bounds. -/
def get (b : Board) (x y : Int) : Except Err (Option Location) :=
  if 0 ≤ x ∧ x < b.opts.size ∧ 0 ≤ y ∧ y < b.opts.size then
    .ok (b.cell x.toNat y.toNat)
  else
    .error (.outOfBounds x y)

/-- `Board.put`: place `location` at `x`, `y` without checking the
invariant; fails if out of bounds, or if the position is occupied and not
`force` (the source's `assert`). -/
def put (b : Board) (location : Option Location) (x y : Int)
    (force : Bool := false) : Except Err Board := do
  let current ← b.get x y
  if !force && current.isSome then
    .error (.cellOccupied x y)
  else
    .ok (b.setCell x.toNat y.toNat location)

/-- `Board.remove`: remove the location at `x`, `y`. -/
def remove (b : Board) (x y : Int) : Except Err Board :=
  b.put none x y true

/-- `Board.set_center`. -/
def set_center (b : Board) (center : Location) : Board :=
  b.setCell b.opts.center_x b.opts.center_y (some center)

/-- `Board.coords`: translate (optionally center-relative) coordinates to
absolute ones. -/
def coords (b : Board) (x y : Int) (centered : Bool := false) : Int × Int :=
  if centered then (b.opts.center_x + x, b.opts.center_y + y) else (x, y)

/-- `Board.placed`: number of locations placed on the board (the
source's `len([cell for row in self.grid for cell in row if cell is not
None])`). -/
def placed (b : Board) : Nat :=
  b.grid.flatten.countP Option.isSome

/-- Well-formedness of a board's grid: `size × size` cells.
`Board.__init__` establishes it and every operation preserves it. -/
def WF (b : Board) : Prop :=
  b.grid.length = b.opts.size ∧ ∀ col ∈ b.grid, col.length = b.opts.size

instance (b : Board) : Decidable b.WF := by
  unfold WF
  infer_instance

/-- The tuples `(x1, y1, x2, y2)` enumerated by the nested loops of
`Board.violations` for a given `direction`, in iteration order: `m1`
ascending over the constrained axis, `m2` from `m1` up, `n1` and `n2`
sweeping the free axis. -/
def pairTuples (size : Nat) (direction : Direction) :
    List (Nat × Nat × Nat × Nat) :=
  (List.range size).flatMap fun m1 =>
    (List.range' m1 (size - m1)).flatMap fun m2 =>
      (List.range size).flatMap fun n1 =>
        (List.range size).map fun n2 =>
          match direction with
          | .LONGITUDE => (m1, n1, m2, n2)
          | .LATITUDE => (n1, m1, n2, m2)

/-- The `checked` set of `Board.violations`: drop every tuple that has
already been processed, keeping first occurrences. -/
def dedupChecked (checked : List (Nat × Nat × Nat × Nat)) :
    List (Nat × Nat × Nat × Nat) → List (Nat × Nat × Nat × Nat)
  | [] => []
  | t :: ts =>
      if t ∈ checked then dedupChecked checked ts
      else t :: dedupChecked (t :: checked) ts

/-- The body of the innermost loop of `Board.violations`: `none` when the
pair of cells is fine (one of them empty, or the `before` predicate
holds), otherwise the `Invalid` witness the source would return. -/
def violationCheck (b : Board) (direction : Direction)
    (t : Nat × Nat × Nat × Nat) : Option Invalid :=
  match b.cell t.1 t.2.1, b.cell t.2.2.1 t.2.2.2 with
  | some first, some second =>
      if first.before second direction b.opts.tolerance then none
      else some ⟨direction, t.1, t.2.1, t.2.2.1, t.2.2.2, first, second⟩
  | _, _ => none

/-- `Board.violations` for a specific direction: return `[]` if the
invariant holds along `direction`, otherwise the singleton list with the
first violation found in iteration order. -/
def violationsDir (b : Board) (direction : Direction) : List Invalid :=
  ((dedupChecked [] (pairTuples b.opts.size direction)).findSome?
    (violationCheck b direction)).toList

/-- `Board.violations` with `direction=None`: longitude violations
followed by latitude violations. -/
def violations (b : Board) : List Invalid :=
  violationsDir b .LONGITUDE ++ violationsDir b .LATITUDE

/-- `Board.try_place`: transactional placement.  Fails if the target cell
is out of bounds or occupied; otherwise writes the location, checks the
whole-board invariant, rolls the write back when violations were found,
and returns the (possibly rolled back) board with the list of offending
directions. -/
def try_place (b : Board) (location : Location) (x y : Int) :
    Except Err (Board × List Direction) := do
  let current ← b.get x y
  if current.isSome then
    .error (.cellOccupied x y)
  else do
    let b1 ← b.put (some location) x y false
    let check := violations b1
    if check.length > 0 then do
      let b2 ← b1.remove x y
      .ok (b2, check.map Invalid.direction)
    else
      .ok (b1, check.map Invalid.direction)

/-- Modelled from the spec: `Board.can_place`, called by `Game.pick` when
the "only sat" option is enabled but not present under `src/` — per the
option's description, a location "can be placed" when some empty in-bounds
cell accepts it without violating the invariant. -/
def can_place (b : Board) (location : Location) : Bool :=
  (List.range b.opts.size).any fun x =>
    (List.range b.opts.size).any fun y =>
      (b.cell x y).isNone && (violations (b.setCell x y (some location))).isEmpty

end Board

namespace Locations

/-- `Locations.keep`: retain only locations that match the capital flag
(when required) and whose continent is in the allowed set. -/
def keep (data : List Location) (capitals_only : Bool)
    (continents : List Continent) : List Location :=
  data.filter fun loc =>
    (loc.capital || !capitals_only) && continents.contains loc.continent

/-- `Locations.pick`: remove and return `k` randomly sampled locations.
The indices chosen by `random.sample(range(len(data)), k)` are passed in
as `indexes`; the result pairs the picked locations (in `indexes` order)
with the remaining data (removal happens at descending indices, as in the
source, so that positions are not invalidated).  Fails without touching
the data if `k` exceeds the current size. -/
def pick (data : List Location) (k : Nat) (indexes : List Nat) :
    Except Err (List Location × List Location) :=
  if k > data.length then
    .error (.insufficientSupply k data.length)
  else
    let result := indexes.map fun i => data.getD i default
    let newData :=
      (indexes.insertionSort (· ≥ ·)).foldl (fun d i => d.eraseIdx i) data
    .ok (result, newData)

/-- `Locations.get`: linear lookup of a location by city name. -/
def getCity (data : List Location) (city : String) : Except Err Location :=
  match data.find? (fun loc => loc.city == city) with
  | some loc => .ok loc
  | none => .error (.notFound city)

end Locations

/-- A dynamically typed Python value as stored in an `Option` entry of
`options.py`: an int, a float, a bool, or a string. -/
inductive Value where
  | VInt (n : Int)
  | VFloat (q : Rat)
  | VBool (b : Bool)
  | VStr (s : String)
deriving DecidableEq, Repr, Inhabited

namespace Value

/-- The numeric content of a value, if any (Python treats `bool` as a
numeric type with `True == 1` and `False == 0`). -/
def numVal : Value → Option Rat
  | VInt n => some n
  | VFloat q => some q
  | VBool b => some (if b then 1 else 0)
  | VStr _ => none

/-- Python `==` on the values that occur in option tables: numbers
compare by numeric value across `int`/`float`/`bool`; strings compare to
strings; numbers and strings are never equal. -/
def pyEq (a b : Value) : Bool :=
  match a.numVal, b.numVal with
  | some x, some y => x == y
  | _, _ =>
      match a, b with
      | VStr s, VStr t => s == t
      | _, _ => false

/-- A zero-padded decimal rendering of a natural number to exactly
`width` digits. -/
def padDigits (n : Nat) (width : Nat) : String :=
  let s := toString n
  String.mk (List.replicate (width - s.length) '0') ++ s

/-- Python `str` of a float, modelled on exact rationals: the shortest
decimal expansion (Python's `repr` of a float round-trips, and on the
decimal-valued floats used by the options it prints the exact decimal
expansion, with a trailing `.0` for integral values).  The number of
fractional digits is the least `k` with `q.den ∣ 10 ^ k`. -/
def floatStr (q : Rat) : String :=
  if q.den = 1 then toString q.num ++ ".0"
  else
    match (List.range' 1 40).find? (fun k => 10 ^ k % q.den == 0) with
    | some k =>
        let sign := if q.num < 0 then "-" else ""
        let scaled := q.num.natAbs * (10 ^ k / q.den)
        sign ++ toString (scaled / 10 ^ k) ++ "." ++ padDigits (scaled % 10 ^ k) k
    | none => "Fraction(" ++ toString q.num ++ "," ++ toString q.den ++ ")"

/-- Python `str` of a value. -/
def pyStr : Value → String
  | VInt n => toString n
  | VFloat q => floatStr q
  | VBool b => if b then "True" else "False"
  | VStr s => s

/-- The numeric value of a decimal digit character, if it is one. -/
def digitVal (c : Char) : Option Nat :=
  if 48 ≤ c.toNat ∧ c.toNat ≤ 57 then some (c.toNat - 48) else none

/-- Parse a non-empty all-digit character list as a natural number. -/
def natParseGo : List Char → Nat → Option Nat
  | [], acc => some acc
  | c :: rest, acc =>
      match digitVal c with
      | some d => natParseGo rest (acc * 10 + d)
      | none => none

/-- Parse a digit string (`none` on the empty list or any non-digit). -/
def natParse (cs : List Char) : Option Nat :=
  if cs.isEmpty then none else natParseGo cs 0

/-- Python `int(s)` on a string: an optional sign followed by digits. -/
def pyIntOfString (s : String) : Except Err Int :=
  let parse : Bool → List Char → Except Err Int := fun neg cs =>
    match natParse cs with
    | some n => .ok (if neg then -(n : Int) else (n : Int))
    | none => .error (.invalidLiteral s)
  match s.data with
  | '-' :: rest => parse true rest
  | '+' :: rest => parse false rest
  | cs => parse false cs

/-- Split a character list at the first `'.'`. -/
def splitDot : List Char → List Char × Option (List Char)
  | [] => ([], none)
  | c :: rest =>
      if c = '.' then ([], some rest)
      else
        let p := splitDot rest
        (c :: p.1, p.2)

/-- Python `float(s)` on a decimal string of the canonical shape
`[sign] digits [. digits]` that `str` of a float produces (the value
`a.b` is the exact rational `(a * 10^|b| + b) / 10^|b|`). -/
def pyFloatOfString (s : String) : Except Err Rat :=
  let (neg, body) :=
    match s.data with
    | '-' :: rest => (true, rest)
    | '+' :: rest => (false, rest)
    | cs => (false, cs)
  let sign : Int := if neg then -1 else 1
  match splitDot body with
  | (ip, none) =>
      match natParse ip with
      | some n => .ok (mkRat (sign * n) 1)
      | none => .error (.invalidLiteral s)
  | (ip, some fp) =>
      match natParse ip, natParse fp with
      | some ia, some fb =>
          .ok (mkRat (sign * (ia * 10 ^ fp.length + fb)) (10 ^ fp.length))
      | _, _ => .error (.invalidLiteral s)

/-- `type(self.choices[0])(value)` for a string `value`: convert the
string with the type constructor of `first` (Python `bool(s)` is true
exactly when `s` is non-empty and never raises). -/
def coerceAs (first : Value) (s : String) : Except Err Value :=
  match first with
  | VInt _ => (pyIntOfString s).map VInt
  | VFloat _ => (pyFloatOfString s).map VFloat
  | VBool _ => .ok (VBool !s.isEmpty)
  | VStr _ => .ok (VStr s)

end Value

/-- An option entry (`options.Option`): a name, a description, the list
of legal choices and the currently selected value. -/
structure OptT where
  name : String
  description : String
  choices : List Value
  value : Value
deriving DecidableEq, Repr, Inhabited

/-- `Option.set`: store `v` if it is one of the legal choices; otherwise,
when `v` is a string equal to the string form of a choice, convert it
with the type of the first choice; otherwise fail. -/
def OptT.set (o : OptT) (v : Value) : Except Err OptT :=
  if o.choices.any (fun c => Value.pyEq v c) then
    .ok { o with value := v }
  else
    match v with
    | .VStr s =>
        if !o.choices.isEmpty && (o.choices.map Value.pyStr).contains s then
          match o.choices.head? with
          | some first => (Value.coerceAs first s).map fun c => { o with value := c }
          | none => .error (.invalidOptionValue o.name)
        else
          .error (.invalidOptionValue o.name)
    | _ => .error (.invalidOptionValue o.name)

/-- A boolean option entry with the given dictionary default, as written
in the `_OPTIONS` literal. -/
def boolOpt (displayName : String) (default : Bool) : OptT :=
  { name := displayName, description := "",
    choices := [.VBool true, .VBool false], value := .VBool default }

/-- The recognized options and their legal value sets: the `_OPTIONS`
dictionary literal of `options.Options_` (entry order and all defaults as
in the source; continent entries are keyed by the continent code and
carry the English display name, as under the `EN` locale used by the
tests). -/
def OPTIONS : List (String × OptT) :=
  [("grid size",
    { name := "", description := "", choices := [.VInt 6, .VInt 8, .VInt 10],
      value := .VInt 10 }),
   ("initial cities",
    { name := "", description := "",
      choices := [.VInt 1, .VInt 2, .VInt 3, .VInt 4, .VInt 5],
      value := .VInt 3 }),
   ("capitals only", boolOpt "" true),
   ("EU", boolOpt "Europe" true),
   ("AS", boolOpt "Asia" true),
   ("AF", boolOpt "Africa" true),
   ("NA", boolOpt "North America" true),
   ("SA", boolOpt "South America" true),
   ("OC", boolOpt "Oceania" true),
   ("AN", boolOpt "Antarctica" true),
   ("tolerance",
    { name := "", description := "",
      choices := [.VFloat 0, .VFloat (mkRat 1 10), .VFloat 1, .VFloat 5, .VFloat 10],
      value := .VFloat 5 }),
   ("draw when fail",
    { name := "", description := "", choices := [.VInt 1, .VInt 2, .VInt 3],
      value := .VInt 2 }),
   ("draw per mistake", boolOpt "" false),
   ("stop drawing",
    { name := "", description := "",
      choices := [.VInt 4, .VInt 6, .VInt 8, .VInt 10], value := .VInt 10 }),
   ("end hand",
    { name := "", description := "",
      choices := [.VInt 3, .VInt 5, .VInt 7, .VInt 10], value := .VInt 10 }),
   ("end rounds",
    { name := "", description := "",
      choices := [.VInt (-1), .VInt 5, .VInt 10, .VInt 30, .VInt 50, .VInt 100],
      value := .VInt (-1) }),
   ("end placed",
    { name := "", description := "",
      choices := [.VInt (-1), .VInt 5, .VInt 7, .VInt 10],
      value := .VInt (-1) }),
   ("empty deck",
    { name := "", description := "",
      choices := [.VInt 0, .VInt 100, .VInt 1000], value := .VInt 0 }),
   ("may swap", boolOpt "" true),
   ("only sat", boolOpt "" true),
   ("wrap", boolOpt "" false),
   ("turn delay",
    { name := "", description := "",
      choices := [.VInt 0, .VInt 5, .VInt 7, .VInt 10], value := .VInt 7 })]

/-- The currently selected configuration values, as consulted by the
policy methods of `options.Options_` (`self['grid size']` and so on): the
typed projection of the `_OPTIONS` dictionary.  Field defaults are the
dictionary defaults. -/
structure Opts where
  gridSize : Nat := 10
  initialCities : Nat := 3
  capitalsOnly : Bool := true
  contEU : Bool := true
  contAS : Bool := true
  contAF : Bool := true
  contNA : Bool := true
  contSA : Bool := true
  contOC : Bool := true
  contAN : Bool := true
  tolerance : Rat := 5
  drawWhenFail : Int := 2
  drawPerMistake : Bool := false
  stopDrawing : Int := 10
  endHand : Int := 10
  endRounds : Int := -1
  endPlaced : Int := -1
  emptyDeck : Int := 0
  maySwap : Bool := true
  onlySat : Bool := true
  wrap : Bool := false
  turnDelay : Nat := 7
deriving DecidableEq, Repr, Inhabited

namespace Opts

/-- Whether the continent's per-continent include option is enabled. -/
def continentFlag (o : Opts) : Continent → Bool
  | .EU => o.contEU
  | .AS => o.contAS
  | .AF => o.contAF
  | .NA => o.contNA
  | .SA => o.contSA
  | .OC => o.contOC
  | .AN => o.contAN

/-- `Options_.continents`: the set of enabled continents (membership is
all the callers use; the source iterates `list(Continent)` in declaration
order). -/
def continents (o : Opts) : List Continent :=
  [Continent.AN, .AS, .AF, .EU, .NA, .OC, .SA].filter o.continentFlag

/-- `Options_.board`: project the configuration into board options (the
source leaves the center fields at their placeholder value, which
`Board.__init__` overwrites before any use). -/
def board (o : Opts) : BoardOptions :=
  { size := o.gridSize, tolerance := o.tolerance, wrap := o.wrap }

/-- `Options_.initial`. -/
def initial (o : Opts) : Nat := o.initialCities

/-- `Options_.may_swap`. -/
def may_swap (o : Opts) : Bool := o.maySwap

/-- Modelled from the spec: `Options_.only_sat`, called by `Game.pick`
and `Game.place`/`Game.swap` but not present under `src/` — per the
option table, it reads the "only sat" configuration entry. -/
def only_sat (o : Opts) : Bool := o.onlySat

/-- `Options_.to_draw`: number of cities to draw after a placement with
`place_result` violated directions for a player holding `hand` cities. -/
def to_draw (o : Opts) (place_result : List Direction) (hand : Int) : Int :=
  let mistakes : Int := place_result.length
  let draw : Int :=
    if mistakes = 0 then 0
    else if o.drawPerMistake then o.drawWhenFail * mistakes
    else o.drawWhenFail
  if hand + draw > o.stopDrawing then o.stopDrawing - hand
  else draw

/-- The game-over message for exceeding the round limit. -/
def msgRounds (o : Opts) : String :=
  "The game is over after " ++ toString o.endRounds ++ " rounds."

/-- The game-over message for a player who emptied their hand. -/
def msgEmptied : String :=
  "The game is over after a player has placed all their locations."

/-- The game-over message for a player whose hand reached the limit. -/
def msgHand (o : Opts) : String :=
  "The game is over after a player has " ++ toString o.endHand ++
    " or more locations in their hand."

/-- The game-over message for the board-full condition. -/
def msgPlaced (o : Opts) : String :=
  "The game is over after " ++ toString o.endPlaced ++
    " locations have been placed on the board."

/-- The game-over message for deck exhaustion. -/
def msgDeck : String := "The game is over because the deck is empty."

/-- The `for score in scores` loop of `Options_.gameover`: the message
for the first score that is zero or at least "end hand", if any. -/
def scoreScan (o : Opts) : List Int → Option String
  | [] => none
  | s :: ss =>
      if s = 0 then some msgEmptied
      else if s ≥ o.endHand then some o.msgHand
      else o.scoreScan ss

/-- `Options_.gameover`: the reason the game is over, or the empty string
if it is not. -/
def gameover (o : Opts) (rounds : Int) (scores : List Int)
    (placed : Int) (deck : Int) : String :=
  if 0 < o.endRounds ∧ o.endRounds < rounds then o.msgRounds
  else
    match o.scoreScan scores with
    | some m => m
    | none =>
        if 0 < o.endPlaced ∧ o.endPlaced ≤ placed then o.msgPlaced
        else if deck - o.emptyDeck ≤ (scores.length : Int) then msgDeck
        else ""

end Opts

/-- A player (`game.Player`): a name, the hand of locations, and the
count of locations placed on the board. -/
structure Player where
  name : String
  hand : List Location
  placed : Nat
deriving DecidableEq, Repr, Inhabited

namespace Player

/-- `Player.__init__`. -/
def init (name : String) : Player := ⟨name, [], 0⟩

/-- `Player.score`: the number of locations still in the hand. -/
def score (p : Player) : Nat := p.hand.length

/-- `Player.placed_locations`. -/
def placed_locations (p : Player) : Nat := p.placed

/-- `Player.deal`: append locations to the hand. -/
def deal (p : Player) (locations : List Location) : Player :=
  { p with hand := p.hand ++ locations }

/-- `Player.play`: remove the first matching location from the hand and
increment the placed counter; fail if the location is not in the hand. -/
def play (p : Player) (location : Location) : Except Err Player :=
  if location ∈ p.hand then
    .ok { p with hand := p.hand.erase location, placed := p.placed + 1 }
  else
    .error (.notInHand location p.name)

/-- `Player.swap`: replace the first occurrence of `loc_out` in the hand
with `loc_in`; fail if `loc_out` is not in the hand. -/
def swapLoc (p : Player) (loc_out loc_in : Location) : Except Err Player :=
  if loc_out ∈ p.hand then
    .ok { p with hand := p.hand.set (p.hand.indexOf loc_out) loc_in }
  else
    .error (.notInHand loc_out p.name)

end Player

/-- The mutable game state (`game.Game`). -/
structure Game where
  deck : List Location
  board : Board
  players : List Player
  rounds : Nat
  turn : Nat
  opts : Opts
deriving DecidableEq, Repr

/-- The outcome of a deck-drawing operation: the deck state reached,
together with the drawn locations or the exception that propagated. -/
inductive DrawRes where
  | ok (deck : List Location) (drawn : List Location)
  | err (deck : List Location) (e : Err)
deriving DecidableEq, Repr

namespace Game

/-- The `while to_draw > 0` loop of `Game.pick`: draw `toDraw` locations
from the deck (one sampled index list per iteration), keep only the
placeable ones when "only sat" is enabled, and repeat until enough have
accumulated.  The loop always terminates because every successful draw
shrinks the deck; `fuel` (instantiated to more than the deck size) makes
that explicit. -/
def pickLoop (o : Opts) (b : Board) :
    Nat → List (List Nat) → List Location → Int → List Location → DrawRes
  | 0, _, deck, _, _ => .err deck .fuelExhausted
  | fuel + 1, samples, deck, toDraw, acc =>
      if toDraw ≤ 0 then .ok deck acc
      else
        match Locations.pick deck toDraw.toNat (samples.headD []) with
        | .error e => .err deck e
        | .ok (locs, deck') =>
            if locs.length ≠ toDraw.toNat then .err deck' .assertionFailed
            else
              let placeable :=
                if o.only_sat then locs.filter b.can_place else locs
              pickLoop o b fuel samples.tail deck'
                (toDraw - placeable.length) (acc ++ placeable)

/-- `Game.pick`: draw `k` locations from the game's deck. -/
def pick (g : Game) (k : Int) (samples : List (List Nat)) : DrawRes :=
  pickLoop g.opts g.board (g.deck.length + 1) samples g.deck k []

/-- `Game.current_player`. -/
def current_player (g : Game) : Player := g.players.getD g.turn default

/-- `Game.gameover`: delegate to the options with the current counters. -/
def gameover (g : Game) : String :=
  g.opts.gameover g.rounds (g.players.map fun p => (p.score : Int))
    g.board.placed g.deck.length

/-- `Game.next_player`: advance the turn cyclically, bumping the round
counter on wrap-around, and report the game-over check. -/
def next_player (g : Game) : Game × String :=
  let turn := (g.turn + 1) % g.players.length
  let g' := { g with turn := turn,
                     rounds := if turn = 0 then g.rounds + 1 else g.rounds }
  (g', g'.gameover)

/-- The state component of `Game.next_player` (for stating iterated
calls). -/
def step (g : Game) : Game := (g.next_player).1

end Game

/-- The outcome of `Game.place`: the game state reached, together with
the returned list of directions or the exception that propagated (Python
mutations performed before a raise persist, so the error case also
carries a state). -/
inductive PlaceRes where
  | ok (g : Game) (result : List Direction)
  | err (g : Game) (e : Err)
deriving DecidableEq, Repr

namespace Game

/-- `Game.place`: the current player (identified by index `pIdx`, since
the source compares the `Player` argument by object identity against
`players[turn]`) tries to place a location from their hand at `(x, y)`.
Delegates to `Board.try_place`, removes the location from the hand
unconditionally, draws replacement locations per the draw policy, and
advances the turn. -/
def place (g : Game) (pIdx : Nat) (location : Location) (x y : Int)
    (samples : List (List Nat)) : PlaceRes :=
  if ¬(pIdx < g.players.length ∧ pIdx = g.turn) then .err g .notYourTurn
  else
    match g.board.try_place location x y with
    | .error e => .err g e
    | .ok (b', result) =>
        let g1 := { g with board := b' }
        match (g1.players.getD pIdx default).play location with
        | .error e => .err g1 e
        | .ok p' =>
            let g2 := { g1 with players := g1.players.set pIdx p' }
            match g2.pick (g2.opts.to_draw result p'.score) samples with
            | .err deck' e =>
                let g3 := { g2 with deck := deck' }
                if g3.opts.only_sat then
                  .ok (g3.next_player).1 result
                else
                  .err g3 e
            | .ok deck' drawn =>
                let g3 := { g2 with deck := deck',
                                    players := g2.players.set pIdx (p'.deal drawn) }
                .ok (g3.next_player).1 result

end Game

/-- The state of a `Game` object as left by `Game.__init__`: because the
constructor catches `ValueError` and breaks out of its loop, the object
can be returned with the `board` and `players` attributes never assigned
(`none`), or with players only partially dealt. -/
structure PartGame where
  opts : Opts
  deck : List Location
  rounds : Nat
  turn : Nat
  board : Option Board
  players : Option (List Player)
deriving DecidableEq, Repr

/-- The outcome of `Game.__init__`: either an exception propagated to the
caller, or an object (possibly partially initialized) was returned. -/
inductive ConstructRes where
  | raised (e : Err)
  | made (g : PartGame)
deriving DecidableEq, Repr

/-- The `for player in self.players: player.deal(self.pick(...))` loop of
`Game.__init__`: deal `o.initial` locations to each player in order,
consuming one sample schedule per player; stops at the first exception,
returning the players as they stand, the deck state, and the exception. -/
def dealAll (o : Opts) (b : Board) :
    List Location → List Player → List (List (List Nat)) →
      List Player × List Location × Option Err
  | deck, [], _ => ([], deck, none)
  | deck, p :: rest, samples =>
      match Game.pickLoop o b (deck.length + 1) (samples.headD []) deck
          (o.initial : Int) [] with
      | .err deck' e => (p :: rest, deck', some e)
      | .ok deck' drawn =>
          let (rest', deck'', e?) := dealAll o b deck' rest samples.tail
          (p.deal drawn :: rest', deck'', e?)

/-- `Game.__init__`: fail if there are no players; filter the deck; then,
inside a `try` whose `except ValueError` clause only logs before the loop
is exited by an unconditional `break`, pick the center location, build
the board, create the players and deal their initial hands.  A
`ValueError` in that block is swallowed and a partially initialized
object is returned. -/
def constructGame (opts : Opts) (names : List String)
    (locations : List Location) (centerSample : List Nat)
    (dealSamples : List (List (List Nat))) : ConstructRes :=
  if names.length = 0 then .raised .noPlayers
  else
    let deck := Locations.keep locations opts.capitalsOnly opts.continents
    match Locations.pick deck 1 centerSample with
    | .error e =>
        if e.isValueError then .made ⟨opts, deck, 0, 0, none, none⟩
        else .raised e
    | .ok (drawn, deck1) =>
        match drawn with
        | [] => .raised .indexError
        | center :: _ =>
            let b := Board.init center opts.board
            let players0 := names.map Player.init
            let (players1, deck2, e?) := dealAll opts b deck1 players0 dealSamples
            match e? with
            | some e =>
                if e.isValueError then
                  .made ⟨opts, deck2, 0, 0, some b, some players1⟩
                else .raised e
            | none => .made ⟨opts, deck2, 0, 0, some b, some players1⟩

/-! ## Concrete fixtures used by witnesses and counterexamples -/

/-- A concrete capital location in Africa at longitude 18, latitude 4
(the shape of the center used by the unit tests). -/
def locA : Location :=
  { city := "A"
    city_ascii := "A"
    longitude := 18
    latitude := 4
    country := "ctry"
    country_iso2 := ""
    country_iso3 := ""
    population := 0
    identifier := 0
    continent := .AF
    capital := true }

/-- A location far west and far north of `locA`. -/
def locB : Location := { locA with city := "B", longitude := -50, latitude := 40 }

/-- A location west of `locA` at nearly the same latitude. -/
def locC : Location := { locA with city := "C", longitude := -50, latitude := 5 }

/-- A 3×3 board with tolerance 5 and `locA` at its center `(1, 1)`. -/
def b3 : Board := Board.init locA { size := 2, tolerance := 5 }

/-- A three-player game on `b3` with player 1 to move. -/
def g3p : Game :=
  { deck := []
    board := b3
    players := [Player.init "P1", Player.init "P2", Player.init "P3"]
    rounds := 0
    turn := 1
    opts := {} }

/-- A two-player game on `b3` where player 0 (to move) holds only
`locA`. -/
def gHold : Game :=
  { deck := []
    board := b3
    players := [⟨"P1", [locA], 0⟩, Player.init "P2"]
    rounds := 0
    turn := 0
    opts := {} }

/-! ## Claim theorems: draw policy (`Options_.to_draw`) -/

/-- The claim "`toDraw` returns 0 when `violationDirections` is empty,
…, reduced to `max(0, stop drawing − currentHandSize)`, … never
negative" is false at a concrete legal configuration: with the default
options (stop drawing = 10) and an empty violation list, a hand of 11
yields `-1`, not `0` (the source returns `stop - hand` without clamping
at zero, and applies the cap even when nothing would be drawn). -/
theorem to_draw_zero_claim_counterexample :
    Opts.to_draw {} [] 11 = -1 ∧ (-1 : Int) ≠ 0 := by
  constructor
  · rfl
  · decide

/-- Amended draw-policy claim: `toDraw(violationDirections, hand)` equals
`min draw (stopDrawing − hand)` where `draw` is 0 for an empty violation
list and otherwise "draw when fail" (times the number of violations when
draw-per-mistake is set); hence `hand + toDraw ≤ stopDrawing` always (the
draw never pushes the hand above "stop drawing"), and the result is `0`
on an empty violation list whenever `hand ≤ stopDrawing` — but it is the
(negative) value `stopDrawing − hand` whenever `hand > stopDrawing`, even
with no violations. -/
theorem to_draw_amended (o : Opts) (vds : List Direction) (hand : Int) :
    Opts.to_draw o vds hand =
      min (if (vds.length : Int) = 0 then 0
           else if o.drawPerMistake then o.drawWhenFail * vds.length
           else o.drawWhenFail)
        (o.stopDrawing - hand) ∧
    hand + Opts.to_draw o vds hand ≤ o.stopDrawing ∧
    ((vds.length : Int) = 0 → hand ≤ o.stopDrawing →
      Opts.to_draw o vds hand = 0) ∧
    ((vds.length : Int) = 0 → hand > o.stopDrawing →
      Opts.to_draw o vds hand = o.stopDrawing - hand) := by
  simp only [Opts.to_draw]
  split_ifs <;> omega

/-- Witness for `to_draw_amended` at the configuration of the unit
tests' last case (draw-when-fail 2, hand 10, stop 10, two violations):
the draw is capped at `min 2 0 = 0`. -/
theorem to_draw_amended_witness :
    Opts.to_draw { drawWhenFail := 2, drawPerMistake := false, stopDrawing := 10 }
        [.LONGITUDE, .LATITUDE] 10 =
      min (if ((2 : Nat) : Int) = 0 then 0 else (2 : Int)) (10 - 10) := by
  have h := to_draw_amended
    { drawWhenFail := 2, drawPerMistake := false, stopDrawing := 10 }
    [.LONGITUDE, .LATITUDE] 10
  simpa using h.1

/-! ## Claim theorems: game-over policy (`Options_.gameover`) -/

/-- The claim "the `score == 0` check takes priority over the
hand-too-large check regardless of the position of the zero score in the
list and of the other scores' values" is false at a concrete legal
configuration: with the default options (end rounds = -1, end hand = 10)
the score list `[10, 0]` produces the hand-too-large reason, because the
source scans the scores in one pass and the earlier score 10 triggers
`score >= end hand` before the zero is ever examined. -/
theorem gameover_zero_priority_counterexample :
    Opts.gameover {} 0 [10, 0] 0 0 = Opts.msgHand {} ∧
    Opts.msgHand {} ≠ Opts.msgEmptied := by
  constructor
  · rfl
  · decide

/-- Amended game-over claim: when the rounds-exceeded condition does not
hold and the score list splits as `pre ++ 0 :: post` where no score in
`pre` is zero or reaches "end hand", `gameover` returns the
player-emptied-hand reason, for arbitrary `rounds`, `placed` and `deck`
values and arbitrary scores after the zero — the scan returns the reason
of the first score that is zero or at least "end hand". -/
theorem gameover_zero_priority_amended (o : Opts) (rounds placed deck : Int)
    (pre post : List Int)
    (hr : ¬(0 < o.endRounds ∧ o.endRounds < rounds))
    (hpre : ∀ s ∈ pre, s ≠ 0 ∧ s < o.endHand) :
    Opts.gameover o rounds (pre ++ 0 :: post) placed deck = Opts.msgEmptied := by
  have hscan : ∀ pre : List Int, (∀ s ∈ pre, s ≠ 0 ∧ s < o.endHand) →
      Opts.scoreScan o (pre ++ 0 :: post) = some Opts.msgEmptied := by
    intro pre hpre
    induction pre with
    | nil => simp [Opts.scoreScan]
    | cons s ss ih =>
        have hs := hpre s (by simp)
        simp only [List.cons_append, Opts.scoreScan, if_neg hs.1,
          if_neg (not_le.mpr hs.2)]
        exact ih fun t ht => hpre t (by simp [ht])
  simp only [Opts.gameover, if_neg hr, hscan pre hpre]

/-- Witness for `gameover_zero_priority_amended`: the default options
with scores `[3, 0, 5]` (the 3 neither zero nor ≥ end hand 10) report
the player-emptied-hand reason. -/
theorem gameover_zero_priority_amended_witness :
    Opts.gameover {} 0 ([3] ++ 0 :: [5]) 7 100 = Opts.msgEmptied := by
  exact gameover_zero_priority_amended {} 0 7 100 [3] [5] (by decide)
    (by decide)

/-! ## Claim theorems: option setting (`Option.set`) -/

/-- `Option.set` stores an in-set value as given. -/
theorem OptT.set_of_mem (o : OptT) (v : Value)
    (h : o.choices.any (fun c => Value.pyEq v c) = true) :
    o.set v = .ok { o with value := v } := by
  simp [OptT.set, h]

/-- `Option.set` on a string that matches the string form of a choice
(but equals no choice) converts it with the type of the first choice. -/
theorem OptT.set_of_strMatch (o : OptT) (s : String) (first : Value)
    (h1 : o.choices.any (fun c => Value.pyEq (.VStr s) c) = false)
    (h2 : o.choices.head? = some first)
    (h3 : (o.choices.map Value.pyStr).contains s = true) :
    o.set (.VStr s) =
      (Value.coerceAs first s).map fun c => { o with value := c } := by
  have hne : o.choices.isEmpty = false := by
    cases hch : o.choices with
    | nil => rw [hch] at h2; exact absurd h2 (by simp)
    | cons a l => simp
  simp only [OptT.set, h1, Bool.false_eq_true, if_false, hne, h3,
    Bool.not_false, Bool.true_and, if_true, h2]

/-- `Option.set` fails on a value that equals no choice and is not a
string matching some choice's string form. -/
theorem OptT.set_of_nomatch (o : OptT) (v : Value)
    (h1 : o.choices.any (fun c => Value.pyEq v c) = false)
    (h2 : ∀ s, v = .VStr s → (o.choices.map Value.pyStr).contains s = false) :
    o.set v = .error (.invalidOptionValue o.name) := by
  simp only [OptT.set, h1, Bool.false_eq_true, if_false]
  cases v with
  | VStr s =>
      simp only [h2 s rfl, Bool.and_false, Bool.false_eq_true, if_false]
  | VInt n => rfl
  | VFloat q => rfl
  | VBool b => rfl

/-- String-coercion round trip over the recognized option table: for
every recognized option, converting the string form of a choice with the
type of the first choice recovers that choice for the int- and
float-valued options, but yields `True` for every boolean option
(Python's `bool` of any non-empty string is `True`). -/
theorem OPTIONS_roundtrip :
    ∀ p ∈ OPTIONS, ∀ c ∈ p.2.choices,
      Value.coerceAs (p.2.choices.headD c) (Value.pyStr c) =
        .ok (if p.2.choices.head? = some (.VBool true) then .VBool true
             else c) := by
  decide

/-- The claim "when the value is a string equal to the string form
`str(v)` of some legal value `v`, it is coerced to that matching typed
value `v`" is false at a concrete recognized option: setting the boolean
"capitals only" option (whose legal values include `False` with string
form `"False"`) to the string `"False"` stores `True`, because the
source converts with `bool(...)` and Python's `bool` of a non-empty
string is `True`. -/
theorem option_set_bool_string_counterexample :
    (boolOpt "" true).set (.VStr "False") =
      .ok { boolOpt "" true with value := .VBool true } ∧
    Value.pyStr (.VBool false) = "False" ∧
    Value.VBool true ≠ Value.VBool false := by
  refine ⟨rfl, rfl, by decide⟩

/-- Amended option-setting claim: for every recognized option and every
value, `set` (1) stores the value as given when it equals (under Python
`==`) one of the legal choices; (2) when the value is a string equal to
the string form of some legal choice `c` but equal to no choice, stores
the string converted with the type of the first choice — which is the
matching typed value `c` for int- and float-valued options but `True`
for boolean options, whatever the string; and (3) fails with
`InvalidOptionValue` in every other case (the pure model returns an
error, so the stored value is unchanged). -/
theorem option_set_amended :
    ∀ p ∈ OPTIONS, ∀ v : Value,
      (p.2.choices.any (fun c => Value.pyEq v c) = true →
        p.2.set v = .ok { p.2 with value := v }) ∧
      (∀ s c, v = .VStr s →
        p.2.choices.any (fun c => Value.pyEq v c) = false →
        c ∈ p.2.choices → Value.pyStr c = s →
        p.2.set v = .ok { p.2 with value :=
          if p.2.choices.head? = some (.VBool true) then .VBool true
          else c }) ∧
      (p.2.choices.any (fun c => Value.pyEq v c) = false →
        (∀ s, v = .VStr s →
          (p.2.choices.map Value.pyStr).contains s = false) →
        p.2.set v = .error (.invalidOptionValue p.2.name)) := by
  intro p hp v
  refine ⟨fun h => OptT.set_of_mem _ _ h, ?_,
    fun h1 h2 => OptT.set_of_nomatch _ _ h1 h2⟩
  intro s c hv h1 hc hstr
  subst hv
  subst hstr
  have hhead : p.2.choices.head? = some (p.2.choices.headD c) := by
    cases hch : p.2.choices with
    | nil => exact absurd hc (by simp [hch])
    | cons a l => simp [hch]
  have h3 : (p.2.choices.map Value.pyStr).contains (Value.pyStr c) = true := by
    have hm : Value.pyStr c ∈ p.2.choices.map Value.pyStr :=
      List.mem_map_of_mem _ hc
    exact List.elem_eq_true_of_mem hm
  rw [OptT.set_of_strMatch _ _ _ h1 hhead h3,
    OPTIONS_roundtrip p hp c hc]
  rfl

/-- Witness for `option_set_amended`: setting the "grid size" option to
the string `"8"` stores the integer 8. -/
theorem option_set_amended_witness :
    ({ name := "", description := "",
       choices := [.VInt 6, .VInt 8, .VInt 10], value := .VInt 10 } : OptT).set
        (.VStr "8") =
      .ok { name := "", description := "",
            choices := [.VInt 6, .VInt 8, .VInt 10], value := .VInt 8 } := by
  have h := (option_set_amended
    ("grid size",
      { name := "", description := "",
        choices := [.VInt 6, .VInt 8, .VInt 10], value := .VInt 10 })
    (by decide) (.VStr "8")).2.1 "8" (.VInt 8) rfl (by decide)
    (by decide) (by decide)
  simpa using h

/-! ## Claim theorems: turn cycling (`Game.next_player`) -/

/-- Iterating `next_player`: after `k` calls the players are untouched,
the turn is `(turn + k) mod n`, and the round counter has increased by
the number of wrap-arounds `(turn + k) / n`. -/
theorem step_iterate (g : Game) (ht : g.turn < g.players.length) (k : Nat) :
    (Game.step^[k] g).players = g.players ∧
    (Game.step^[k] g).turn = (g.turn + k) % g.players.length ∧
    (Game.step^[k] g).rounds = g.rounds + (g.turn + k) / g.players.length := by
  induction k with
  | zero =>
      simp [Nat.mod_eq_of_lt ht, Nat.div_eq_of_lt ht]
  | succ k ih =>
      obtain ⟨hp, htk, hr⟩ := ih
      rw [Function.iterate_succ_apply']
      refine ⟨by simp [Game.step, Game.next_player, hp], ?_, ?_⟩
      · simp only [Game.step, Game.next_player, hp, htk, Nat.mod_add_mod,
          ← Nat.add_assoc]
      · simp only [Game.step, Game.next_player, hp, htk, hr, Nat.mod_add_mod,
          ← Nat.add_assoc]
        rw [Nat.succ_div]
        by_cases hdvd : g.players.length ∣ g.turn + k + 1
        · rw [if_pos hdvd, if_pos (Nat.dvd_iff_mod_eq_zero.mp hdvd)]
          omega
        · rw [if_neg hdvd,
            if_neg fun hmod => hdvd (Nat.dvd_iff_mod_eq_zero.mpr hmod)]
          omega

/-- Turn cycling: on a game with `n ≥ 1` players and turn index in
`[0, n)`, `n` consecutive `nextPlayer` calls return the turn to its
original value and increase the round counter by exactly 1; a single
call sets the turn to `(turn + 1) mod n`, and increments the round
counter exactly when the turn wraps to 0. -/
theorem next_player_turn_cycling (g : Game) (hn : 0 < g.players.length)
    (ht : g.turn < g.players.length) :
    (Game.step^[g.players.length] g).turn = g.turn ∧
    (Game.step^[g.players.length] g).rounds = g.rounds + 1 ∧
    (Game.step g).turn = (g.turn + 1) % g.players.length ∧
    ((Game.step g).rounds = g.rounds + 1 ↔
      (g.turn + 1) % g.players.length = 0) ∧
    ((g.turn + 1) % g.players.length ≠ 0 → (Game.step g).rounds = g.rounds) := by
  obtain ⟨-, htn, hrn⟩ := step_iterate g ht g.players.length
  obtain ⟨-, ht1, hr1⟩ := step_iterate g ht 1
  rw [Function.iterate_one] at ht1 hr1
  have ht0 : g.turn / g.players.length = 0 := Nat.div_eq_of_lt ht
  refine ⟨?_, ?_, ?_, ?_, ?_⟩
  · rw [htn, Nat.add_mod_right, Nat.mod_eq_of_lt ht]
  · rw [hrn, Nat.add_div_right _ hn, ht0]
  · exact ht1
  · rw [hr1]
    rcases Nat.lt_or_ge (g.turn + 1) g.players.length with hlt | hge
    · rw [Nat.div_eq_of_lt hlt, Nat.mod_eq_of_lt hlt]
      omega
    · have heq : g.turn + 1 = g.players.length := by omega
      rw [heq, Nat.div_self hn, Nat.mod_self]
      simp
  · intro hne
    rw [hr1]
    rcases Nat.lt_or_ge (g.turn + 1) g.players.length with hlt | hge
    · rw [Nat.div_eq_of_lt hlt]
      omega
    · have heq : g.turn + 1 = g.players.length := by omega
      rw [heq, Nat.mod_self] at hne
      exact absurd rfl hne

/-- Witness for `next_player_turn_cycling`: the three-player game `g3p`
(turn 1, round 0) returns to turn 1 with round 1 after three calls. -/
theorem next_player_turn_cycling_witness :
    (Game.step^[3] g3p).turn = 1 ∧ (Game.step^[3] g3p).rounds = 1 := by
  have h := next_player_turn_cycling g3p (by decide) (by decide)
  exact ⟨h.1, h.2.1⟩

/-! ## List helper lemmas for the board proofs -/

/-- Setting an index of a list to the element already there changes
nothing. -/
theorem set_getD_eq_self {α : Type} (l : List α) (i : Nat) (d : α)
    (h : i < l.length) : l.set i (l.getD i d) = l := by
  induction l generalizing i with
  | nil => simp at h
  | cons a t ih =>
      cases i with
      | zero => simp
      | succ i =>
          simp only [List.getD_cons_succ, List.set_cons_succ, List.cons.injEq,
            true_and]
          exact ih i (by simpa using h)

/-- `countP` after a `set`, in subtraction-free form. -/
theorem countP_set_add {α : Type} (p : α → Bool) (l : List α) (i : Nat)
    (a b : α) (h : l[i]? = some b) :
    (l.set i a).countP p + (if p b then 1 else 0) =
      l.countP p + (if p a then 1 else 0) := by
  induction l generalizing i with
  | nil => simp at h
  | cons c t ih =>
      cases i with
      | zero =>
          simp only [List.getElem?_cons_zero, Option.some.injEq] at h
          subst h
          simp only [List.set_cons_zero, List.countP_cons]
          omega
      | succ i =>
          simp only [List.getElem?_cons_succ] at h
          simp only [List.set_cons_succ, List.countP_cons]
          have := ih i h
          omega

/-- `sum` after a `set`, in subtraction-free form. -/
theorem sum_set_add (l : List Nat) (i : Nat) (a b : Nat)
    (h : l[i]? = some b) : (l.set i a).sum + b = l.sum + a := by
  induction l generalizing i with
  | nil => simp at h
  | cons c t ih =>
      cases i with
      | zero =>
          simp only [List.getElem?_cons_zero, Option.some.injEq] at h
          subst h
          simp only [List.set_cons_zero, List.sum_cons]
          omega
      | succ i =>
          simp only [List.getElem?_cons_succ] at h
          simp only [List.set_cons_succ, List.sum_cons]
          have := ih i h
          omega

/-! ## Board cell/placed lemmas -/

/-- `setCell` does not change the board options. -/
theorem Board.opts_setCell (b : Board) (x y : Nat) (v : Option Location) :
    (b.setCell x y v).opts = b.opts := rfl

/-- Reading back the cell just written. -/
theorem Board.cell_setCell_self (b : Board) (x y : Nat) (v : Option Location)
    (hx : x < b.grid.length) (hy : y < (b.grid.getD x []).length) :
    (b.setCell x y v).cell x y = v := by
  unfold Board.cell Board.setCell
  simp only [List.getD_eq_getElem?_getD, List.getElem?_set_self hx,
    Option.getD_some]
  rw [List.getElem?_set_self (by simpa using hy), Option.getD_some]

/-- Reading any other cell after a write. -/
theorem Board.cell_setCell_ne (b : Board) (x y : Nat) (v : Option Location)
    (x' y' : Nat) (h : (x', y') ≠ (x, y)) :
    (b.setCell x y v).cell x' y' = b.cell x' y' := by
  unfold Board.cell Board.setCell
  by_cases hxx : x' = x
  · subst hxx
    have hyy : y' ≠ y := by simpa [Prod.ext_iff] using h
    by_cases hx : x' < b.grid.length
    · simp only [List.getD_eq_getElem?_getD, List.getElem?_set_self hx,
        Option.getD_some]
      rw [List.getElem?_set_ne (by omega)]
    · rw [List.set_eq_of_length_le (by omega)]
  · simp only [List.getD_eq_getElem?_getD,
      List.getElem?_set_ne (fun he => hxx he.symm)]

/-- Two successive writes at the same cell collapse to the second. -/
theorem Board.setCell_setCell (b : Board) (x y : Nat)
    (v w : Option Location) (hx : x < b.grid.length) :
    (b.setCell x y v).setCell x y w = b.setCell x y w := by
  unfold Board.setCell
  simp only [List.set_set, Board.mk.injEq, and_true]
  rw [List.getD_eq_getElem?_getD, List.getElem?_set_self hx,
    Option.getD_some, List.set_set]

/-- Writing back the value a cell already holds changes nothing. -/
theorem Board.setCell_cell_self (b : Board) (x y : Nat)
    (hx : x < b.grid.length) (hy : y < (b.grid.getD x []).length) :
    b.setCell x y (b.cell x y) = b := by
  unfold Board.setCell Board.cell
  have h1 : (b.grid.getD x []).set y ((b.grid.getD x []).getD y none) =
      b.grid.getD x [] := set_getD_eq_self _ _ _ hy
  rw [h1]
  have h2 : b.grid.getD x [] = b.grid[x] := by
    rw [List.getD_eq_getElem?_getD, List.getElem?_eq_getElem hx,
      Option.getD_some]
  rw [h2]
  have h3 : b.grid.set x b.grid[x] = b.grid := by
    have := set_getD_eq_self b.grid x [] hx
    rwa [List.getD_eq_getElem?_getD, List.getElem?_eq_getElem hx,
      Option.getD_some] at this
  simp [h3]

/-- Writing a location into an empty in-bounds cell increases the placed
count by one. -/
theorem Board.placed_setCell_some (b : Board) (x y : Nat) (loc : Location)
    (hx : x < b.grid.length) (hy : y < (b.grid.getD x []).length)
    (hempty : b.cell x y = none) :
    (b.setCell x y (some loc)).placed = b.placed + 1 := by
  unfold Board.placed Board.setCell
  simp only [List.countP_flatten, List.map_set]
  have hcol : b.grid[x]? = some (b.grid.getD x []) := by
    rw [List.getElem?_eq_getElem hx, List.getD_eq_getElem?_getD,
      List.getElem?_eq_getElem hx, Option.getD_some]
  have hcell : (b.grid.getD x [])[y]? = some none := by
    unfold Board.cell at hempty
    rw [List.getElem?_eq_getElem (by simpa using hy)]
    rw [List.getD_eq_getElem?_getD, List.getElem?_eq_getElem (by simpa using hy),
      Option.getD_some] at hempty
    rw [hempty]
  have hinner := countP_set_add Option.isSome (b.grid.getD x []) y
    (some loc) none hcell
  simp at hinner
  have hmap : (b.grid.map (List.countP Option.isSome))[x]? =
      some ((b.grid.getD x []).countP Option.isSome) := by
    rw [List.getElem?_map, hcol]
    rfl
  have houter := sum_set_add (b.grid.map (List.countP Option.isSome)) x
    (((b.grid.getD x []).set y (some loc)).countP Option.isSome)
    ((b.grid.getD x []).countP Option.isSome) hmap
  simp only [List.getD_eq_getElem?_getD] at hinner houter ⊢
  omega

/-! ## `try_place` evaluation lemmas -/

/-- `Board.get` on in-bounds coordinates returns the cell. -/
theorem Board.get_inbounds (b : Board) (x y : Int) (h0 : 0 ≤ x)
    (h1 : x < b.opts.size) (h2 : 0 ≤ y) (h3 : y < b.opts.size) :
    b.get x y = .ok (b.cell x.toNat y.toNat) := by
  simp [Board.get, h0, h1, h2, h3]

/-- In-bounds columns of a well-formed board have full length. -/
theorem Board.WF.col_length (b : Board) (hwf : b.WF) (x : Nat)
    (hx : x < b.opts.size) : (b.grid.getD x []).length = b.opts.size := by
  obtain ⟨hlen, hcols⟩ := hwf
  have hx' : x < b.grid.length := by omega
  rw [List.getD_eq_getElem?_getD, List.getElem?_eq_getElem hx',
    Option.getD_some]
  exact hcols _ (List.getElem_mem hx')

/-- `Board.try_place` on an occupied in-bounds cell fails before any
mutation. -/
theorem Board.try_place_occupied (b : Board) (loc : Location) (x y : Int)
    (h0 : 0 ≤ x) (h1 : x < b.opts.size) (h2 : 0 ≤ y) (h3 : y < b.opts.size)
    (cur : Location) (hocc : b.cell x.toNat y.toNat = some cur) :
    b.try_place loc x y = .error (.cellOccupied x y) := by
  simp [Board.try_place, Bind.bind, Except.bind,
    Board.get_inbounds b x y h0 h1 h2 h3, hocc]

/-- `Board.try_place` on an empty in-bounds cell whose placement keeps
the invariant commits the write and returns no violations. -/
theorem Board.try_place_clean (b : Board) (loc : Location) (x y : Int)
    (h0 : 0 ≤ x) (h1 : x < b.opts.size) (h2 : 0 ≤ y) (h3 : y < b.opts.size)
    (hempty : b.cell x.toNat y.toNat = none)
    (hnil : (b.setCell x.toNat y.toNat (some loc)).violations = []) :
    b.try_place loc x y = .ok (b.setCell x.toNat y.toNat (some loc), []) := by
  simp [Board.try_place, Board.put, Bind.bind, Except.bind,
    Board.get_inbounds b x y h0 h1 h2 h3, hempty, hnil]

/-- `Board.try_place` on an empty in-bounds cell whose placement breaks
the invariant rolls back: the returned board is the original one, and the
directions are those of the violations of the transient board. -/
theorem Board.try_place_rollback (b : Board) (loc : Location) (x y : Int)
    (hwf : b.WF) (h0 : 0 ≤ x) (h1 : x < b.opts.size) (h2 : 0 ≤ y)
    (h3 : y < b.opts.size) (hempty : b.cell x.toNat y.toNat = none)
    (hne : (b.setCell x.toNat y.toNat (some loc)).violations ≠ []) :
    b.try_place loc x y =
      .ok (b, (b.setCell x.toNat y.toNat (some loc)).violations.map
        Invalid.direction) := by
  have hx : x.toNat < b.grid.length := by
    obtain ⟨hlen, -⟩ := hwf
    omega
  have hy : y.toNat < (b.grid.getD x.toNat []).length := by
    rw [Board.WF.col_length b hwf x.toNat (by omega)]
    omega
  have hget1 : (b.setCell x.toNat y.toNat (some loc)).get x y =
      .ok ((b.setCell x.toNat y.toNat (some loc)).cell x.toNat y.toNat) :=
    Board.get_inbounds _ x y h0 h1 h2 h3
  have hcollapse : (b.setCell x.toNat y.toNat (some loc)).setCell
      x.toNat y.toNat none = b := by
    rw [Board.setCell_setCell b _ _ _ _ hx, ← hempty,
      Board.setCell_cell_self b _ _ hx hy]
  have hlen : (b.setCell x.toNat y.toNat (some loc)).violations.length > 0 := by
    cases hv : (b.setCell x.toNat y.toNat (some loc)).violations with
    | nil => exact absurd hv hne
    | cons a t => simp
  simp only [Board.try_place, Bind.bind, Except.bind,
    Board.get_inbounds b x y h0 h1 h2 h3, hempty, Option.isSome_none,
    Bool.false_eq_true, if_false, Board.put, Board.remove, hget1,
    Bool.not_false, Bool.true_and, Bool.and_self, if_true, hlen, hcollapse]
  simp [hcollapse]

/-! ## Claim theorems: `try_place` transactionality and commit -/

/-- Transactionality of `try_place`: for every well-formed board and
placement at an in-bounds empty cell, if `try_place` returns a non-empty
list of directions then the returned board is identical to the pre-call
board (hence every cell content, `placed()` and `get(x, y)` are
unchanged). -/
theorem try_place_transactional (b : Board) (loc : Location) (x y : Int)
    (hwf : b.WF) (h0 : 0 ≤ x) (h1 : x < b.opts.size) (h2 : 0 ≤ y)
    (h3 : y < b.opts.size) (hempty : b.cell x.toNat y.toNat = none)
    (b2 : Board) (dirs : List Direction)
    (hres : b.try_place loc x y = .ok (b2, dirs)) (hne : dirs ≠ []) :
    b2 = b := by
  by_cases hv : (b.setCell x.toNat y.toNat (some loc)).violations = []
  · rw [Board.try_place_clean b loc x y h0 h1 h2 h3 hempty hv] at hres
    injection hres with hres
    injection hres with hb hd
    exact absurd hd.symm hne
  · rw [Board.try_place_rollback b loc x y hwf h0 h1 h2 h3 hempty hv] at hres
    injection hres with hres
    injection hres with hb hd
    exact hb.symm

/-- Witness for `try_place_transactional`: placing `locB` (latitude 40)
west of center on `b3` (center latitude 4, tolerance 5) violates the
LATITUDE invariant, and the returned board is `b3` itself. -/
theorem try_place_transactional_witness :
    b3.WF ∧ b3.try_place locB 0 1 = .ok (b3, [.LATITUDE]) ∧ b3 = b3 := by
  refine ⟨by decide, by decide, ?_⟩
  exact try_place_transactional b3 locB 0 1 (by decide) (by decide)
    (by decide) (by decide) (by decide) (by decide) b3 [.LATITUDE]
    (by decide) (by decide)

/-- Commit of `try_place`: on every well-formed board and in-bounds
coordinates, `try_place` fails with CellOccupied (before any mutation —
the model returns the error with no successor state) when the target
cell is occupied; and when it returns the empty list, afterwards
`get(x, y)` is the placed location, `placed()` has increased by exactly
one, and every other cell is unchanged. -/
theorem try_place_commit (b : Board) (loc : Location) (x y : Int)
    (hwf : b.WF) (h0 : 0 ≤ x) (h1 : x < b.opts.size) (h2 : 0 ≤ y)
    (h3 : y < b.opts.size) :
    (∀ cur, b.cell x.toNat y.toNat = some cur →
      b.try_place loc x y = .error (.cellOccupied x y)) ∧
    (∀ b2, b.try_place loc x y = .ok (b2, []) →
      b2.get x y = .ok (some loc) ∧
      b2.placed = b.placed + 1 ∧
      ∀ x' y' : Nat, (x', y') ≠ (x.toNat, y.toNat) →
        b2.cell x' y' = b.cell x' y') := by
  have hx : x.toNat < b.grid.length := by
    obtain ⟨hlen, -⟩ := hwf
    omega
  have hy : y.toNat < (b.grid.getD x.toNat []).length := by
    rw [Board.WF.col_length b hwf x.toNat (by omega)]
    omega
  constructor
  · exact fun cur hocc => Board.try_place_occupied b loc x y h0 h1 h2 h3 cur hocc
  · intro b2 hres
    cases hcell : b.cell x.toNat y.toNat with
    | some cur =>
        rw [Board.try_place_occupied b loc x y h0 h1 h2 h3 cur hcell] at hres
        exact absurd hres (by simp)
    | none =>
        by_cases hv : (b.setCell x.toNat y.toNat (some loc)).violations = []
        · rw [Board.try_place_clean b loc x y h0 h1 h2 h3 hcell hv] at hres
          injection hres with hres
          injection hres with hb hsnd
          subst hb
          refine ⟨?_, ?_, ?_⟩
          · rw [Board.get_inbounds (b.setCell x.toNat y.toNat (some loc))
                x y h0 h1 h2 h3, Board.cell_setCell_self b _ _ _ hx hy]
          · exact Board.placed_setCell_some b _ _ loc hx hy hcell
          · exact fun x' y' hne => Board.cell_setCell_ne b _ _ _ x' y' hne
        · rw [Board.try_place_rollback b loc x y hwf h0 h1 h2 h3 hcell hv] at hres
          injection hres with hres
          injection hres with hb hd
          exact absurd (List.map_eq_nil_iff.mp hd) hv

/-- Witness for `try_place_commit`: placing `locC` west of center on
`b3` succeeds; the commit conclusions hold at the resulting board. -/
theorem try_place_commit_witness :
    (b3.setCell 0 1 (some locC)).get 0 1 = .ok (some locC) ∧
    (b3.setCell 0 1 (some locC)).placed = b3.placed + 1 ∧
    (b3.setCell 0 1 (some locC)).cell 2 2 = b3.cell 2 2 := by
  have h := (try_place_commit b3 locC 0 1 (by decide) (by decide) (by decide)
    (by decide) (by decide)).2 (b3.setCell 0 1 (some locC)) (by decide)
  exact ⟨h.1, h.2.1, h.2.2 2 2 (by decide)⟩

/-! ## Claim theorems: invariant closure (`Board.violations`) -/

/-- `ratSubLe` computes the subtraction comparison of the source. -/
theorem ratSubLe_iff (a b c : Rat) : ratSubLe a b c = true ↔ a - b ≤ c := by
  rw [ratSubLe, decide_eq_true_iff]
  have hA : (0 : ℚ) < (a.den : ℚ) := by exact_mod_cast a.den_pos
  have hB : (0 : ℚ) < (b.den : ℚ) := by exact_mod_cast b.den_pos
  have hC : (0 : ℚ) < (c.den : ℚ) := by exact_mod_cast c.den_pos
  have key : a - b ≤ c ↔
      ((a.num : ℚ) / a.den - (b.num : ℚ) / b.den ≤ (c.num : ℚ) / c.den) := by
    rw [Rat.num_div_den, Rat.num_div_den, Rat.num_div_den]
  rw [key, div_sub_div _ _ hA.ne' hB.ne', div_le_div_iff₀ (by positivity) hC,
    ← Int.cast_le (R := ℚ)]
  push_cast
  ring_nf

/-- `Location.before` along LONGITUDE is the source's disjunction. -/
theorem before_longitude_iff (a c : Location) (t : Rat) :
    a.before c .LONGITUDE t = true ↔
      (a.longitude < c.longitude ∨ a.longitude - c.longitude ≤ t) := by
  simp [Location.before, ratSubLe_iff]

/-- `Location.before` along LATITUDE is the source's disjunction. -/
theorem before_latitude_iff (a c : Location) (t : Rat) :
    a.before c .LATITUDE t = true ↔
      (a.latitude > c.latitude ∨ c.latitude - a.latitude ≤ t) := by
  simp [Location.before, ratSubLe_iff]

/-- Membership in the `checked`-deduplicated tuple stream. -/
theorem mem_dedupChecked (l : List (Nat × Nat × Nat × Nat)) :
    ∀ (seen : List (Nat × Nat × Nat × Nat)) (t : Nat × Nat × Nat × Nat),
      t ∈ Board.dedupChecked seen l ↔ t ∈ l ∧ t ∉ seen := by
  induction l with
  | nil => simp [Board.dedupChecked]
  | cons a l ih =>
      intro seen t
      unfold Board.dedupChecked
      by_cases ha : a ∈ seen
      · rw [if_pos ha, ih seen t]
        constructor
        · exact fun ⟨h1, h2⟩ => ⟨List.mem_cons_of_mem a h1, h2⟩
        · rintro ⟨h1, h2⟩
          rcases List.mem_cons.mp h1 with rfl | h1
          · exact absurd ha h2
          · exact ⟨h1, h2⟩
      · rw [if_neg ha]
        simp only [List.mem_cons, ih (a :: seen) t]
        by_cases hta : t = a
        · subst hta
          tauto
        · tauto

/-- The tuples enumerated for the LONGITUDE scan. -/
theorem mem_pairTuples_longitude (size x1 y1 x2 y2 : Nat) :
    (x1, y1, x2, y2) ∈ Board.pairTuples size .LONGITUDE ↔
      x1 ≤ x2 ∧ x2 < size ∧ y1 < size ∧ y2 < size := by
  simp only [Board.pairTuples, List.mem_flatMap, List.mem_range,
    List.mem_map, List.mem_range'_1]
  constructor
  · rintro ⟨m1, hm1, m2, hm2, n1, hn1, n2, hn2, heq⟩
    obtain ⟨rfl, rfl, rfl, rfl⟩ : m1 = x1 ∧ n1 = y1 ∧ m2 = x2 ∧ n2 = y2 := by
      simpa [Prod.ext_iff] using heq
    omega
  · rintro ⟨h1, h2, h3, h4⟩
    exact ⟨x1, by omega, x2, by omega, y1, h3, y2, h4, rfl⟩

/-- The tuples enumerated for the LATITUDE scan. -/
theorem mem_pairTuples_latitude (size x1 y1 x2 y2 : Nat) :
    (x1, y1, x2, y2) ∈ Board.pairTuples size .LATITUDE ↔
      y1 ≤ y2 ∧ y2 < size ∧ x1 < size ∧ x2 < size := by
  simp only [Board.pairTuples, List.mem_flatMap, List.mem_range,
    List.mem_map, List.mem_range'_1]
  constructor
  · rintro ⟨m1, hm1, m2, hm2, n1, hn1, n2, hn2, heq⟩
    obtain ⟨rfl, rfl, rfl, rfl⟩ : n1 = x1 ∧ m1 = y1 ∧ n2 = x2 ∧ m2 = y2 := by
      simpa [Prod.ext_iff] using heq
    omega
  · rintro ⟨h1, h2, h3, h4⟩
    exact ⟨y1, by omega, y2, by omega, x1, h3, x2, h4, rfl⟩

/-- The inner check of the scan passes exactly when the cells are not
both occupied or the `before` predicate holds. -/
theorem violationCheck_none_iff (b : Board) (d : Direction)
    (t : Nat × Nat × Nat × Nat) :
    Board.violationCheck b d t = none ↔
      ∀ a c, b.cell t.1 t.2.1 = some a → b.cell t.2.2.1 t.2.2.2 = some c →
        a.before c d b.opts.tolerance = true := by
  unfold Board.violationCheck
  cases h1 : b.cell t.1 t.2.1 with
  | none => simp [h1]
  | some a =>
      cases h2 : b.cell t.2.2.1 t.2.2.2 with
      | none => simp [h2]
      | some c =>
          by_cases hb : a.before c d b.opts.tolerance
          · simp [hb]
          · simp only [hb, Bool.false_eq_true, if_false]
            constructor
            · intro h
              exact absurd h (by simp)
            · intro h
              exact absurd (h a c rfl rfl) hb

/-- The single-direction scan returns `[]` exactly when every enumerated
pair of occupied cells passes the `before` check. -/
theorem violationsDir_eq_nil_iff (b : Board) (d : Direction) :
    b.violationsDir d = [] ↔
      ∀ t ∈ Board.pairTuples b.opts.size d,
        Board.violationCheck b d t = none := by
  unfold Board.violationsDir
  have htl : ∀ o : Option Invalid, o.toList = [] ↔ o = none := by
    intro o
    cases o <;> simp
  rw [htl]
  constructor
  · intro h t ht
    have := List.findSome?_eq_none_iff.mp h t
    exact this ((mem_dedupChecked _ [] t).mpr ⟨ht, by simp⟩)
  · intro h
    exact List.findSome?_eq_none_iff.mpr fun t ht =>
      h t ((mem_dedupChecked _ [] t).mp ht).1

/-- Invariant closure: `violations()` is empty iff for every pair of
occupied cells with columns `x1 ≤ x2` the Location at `(x1, y1)` is
before the one at `(x2, y2)` along LONGITUDE within tolerance — with
`before(a, c, LONGITUDE, t)` spelled `a.longitude < c.longitude ∨
a.longitude − c.longitude ≤ t` — and for every pair of occupied cells
with rows `y1 ≤ y2` the Location at `(x1, y1)` is before the one at
`(x2, y2)` along LATITUDE — spelled `a.latitude > c.latitude ∨
c.latitude − a.latitude ≤ t`. -/
theorem violations_closure (b : Board) :
    b.violations = [] ↔
      ((∀ x1 y1 x2 y2 : Nat, x1 ≤ x2 → x2 < b.opts.size →
          y1 < b.opts.size → y2 < b.opts.size →
          ∀ a c, b.cell x1 y1 = some a → b.cell x2 y2 = some c →
            (a.longitude < c.longitude ∨
              a.longitude - c.longitude ≤ b.opts.tolerance)) ∧
       (∀ x1 y1 x2 y2 : Nat, y1 ≤ y2 → y2 < b.opts.size →
          x1 < b.opts.size → x2 < b.opts.size →
          ∀ a c, b.cell x1 y1 = some a → b.cell x2 y2 = some c →
            (a.latitude > c.latitude ∨
              c.latitude - a.latitude ≤ b.opts.tolerance))) := by
  rw [Board.violations, List.append_eq_nil, violationsDir_eq_nil_iff,
    violationsDir_eq_nil_iff]
  constructor
  · rintro ⟨hlng, hlat⟩
    constructor
    · intro x1 y1 x2 y2 hle hx2 hy1 hy2 a c ha hc
      have := (violationCheck_none_iff b .LONGITUDE (x1, y1, x2, y2)).mp
        (hlng _ ((mem_pairTuples_longitude _ _ _ _ _).mpr ⟨hle, hx2, hy1, hy2⟩))
        a c ha hc
      exact (before_longitude_iff a c _).mp this
    · intro x1 y1 x2 y2 hle hy2 hx1 hx2 a c ha hc
      have := (violationCheck_none_iff b .LATITUDE (x1, y1, x2, y2)).mp
        (hlat _ ((mem_pairTuples_latitude _ _ _ _ _).mpr ⟨hle, hy2, hx1, hx2⟩))
        a c ha hc
      exact (before_latitude_iff a c _).mp this
  · rintro ⟨hlng, hlat⟩
    constructor
    · intro t ht
      obtain ⟨x1, y1, x2, y2⟩ := t
      obtain ⟨hle, hx2, hy1, hy2⟩ := (mem_pairTuples_longitude _ _ _ _ _).mp ht
      exact (violationCheck_none_iff b .LONGITUDE (x1, y1, x2, y2)).mpr
        fun a c ha hc => (before_longitude_iff a c _).mpr
          (hlng x1 y1 x2 y2 hle hx2 hy1 hy2 a c ha hc)
    · intro t ht
      obtain ⟨x1, y1, x2, y2⟩ := t
      obtain ⟨hle, hy2, hx1, hx2⟩ := (mem_pairTuples_latitude _ _ _ _ _).mp ht
      exact (violationCheck_none_iff b .LATITUDE (x1, y1, x2, y2)).mpr
        fun a c ha hc => (before_latitude_iff a c _).mpr
          (hlat x1 y1 x2 y2 hle hy2 hx1 hx2 a c ha hc)

/-! ## Claim theorems: deck sampling (`Locations.pick`) -/

/-- A list is a permutation of its `i`-th element consed onto the list
with index `i` erased. -/
theorem perm_getD_cons_eraseIdx {α : Type} [Inhabited α] (l : List α)
    (i : Nat) (h : i < l.length) :
    l.Perm (l.getD i default :: l.eraseIdx i) := by
  have hget : l.getD i default = l[i] := by
    rw [List.getD_eq_getElem?_getD, List.getElem?_eq_getElem h,
      Option.getD_some]
  have hsplit : l = l.take i ++ l[i] :: l.drop (i + 1) := by
    conv_lhs => rw [← List.take_append_drop i l]
    rw [List.drop_eq_getElem_cons h]
  rw [hget, List.eraseIdx_eq_take_drop_succ]
  nth_rewrite 1 [hsplit]
  exact List.perm_middle

/-- Erasing a later index does not change earlier entries. -/
theorem getD_eraseIdx_lt {α : Type} [Inhabited α] (l : List α)
    (i j : Nat) (h : j < i) :
    (l.eraseIdx i).getD j default = l.getD j default := by
  rw [List.getD_eq_getElem?_getD, List.getD_eq_getElem?_getD,
    List.getElem?_eraseIdx_of_lt l i j h]

/-- Removing a strictly descending list of in-range indices by repeated
`eraseIdx` removes exactly those positions: the removed elements together
with the remainder are a permutation of the original list, and the
length drops by the number of indices. -/
theorem foldl_eraseIdx_spec (J : List Nat) :
    ∀ data : List Location, J.Pairwise (· > ·) →
      (∀ i ∈ J, i < data.length) →
      (J.foldl (fun d i => d.eraseIdx i) data).length + J.length =
        data.length ∧
      ((J.foldl (fun d i => d.eraseIdx i) data) ++
        J.map fun i => data.getD i default).Perm data := by
  induction J with
  | nil => simp
  | cons i J ih =>
      intro data hpw hbnd
      have hgt : ∀ j ∈ J, j < i := fun j hj =>
        (List.pairwise_cons.mp hpw).1 j hj
      have hi : i < data.length := hbnd i (List.mem_cons_self i J)
      have hlen' : (data.eraseIdx i).length = data.length - 1 :=
        List.length_eraseIdx_of_lt hi
      have hbnd' : ∀ j ∈ J, j < (data.eraseIdx i).length := fun j hj => by
        have := hgt j hj
        omega
      obtain ⟨ihlen, ihperm⟩ :=
        ih (data.eraseIdx i) (List.pairwise_cons.mp hpw).2 hbnd'
      rw [List.foldl_cons]
      constructor
      · rw [List.length_cons]
        omega
      · have hmaps : (J.map fun j => (data.eraseIdx i).getD j default) =
            J.map fun j => data.getD j default :=
          List.map_congr_left fun j hj => getD_eraseIdx_lt data i j (hgt j hj)
        rw [hmaps] at ihperm
        have s1 : ((J.foldl (fun d j => d.eraseIdx j) (data.eraseIdx i)) ++
              (data.getD i default :: J.map fun j => data.getD j default)).Perm
            (data.getD i default ::
              ((J.foldl (fun d j => d.eraseIdx j) (data.eraseIdx i)) ++
                J.map fun j => data.getD j default)) := List.perm_middle
        have s2 := (ihperm.cons (data.getD i default))
        exact s1.trans (s2.trans (perm_getD_cons_eraseIdx data i hi).symm)

/-- Sampling correctness of `pick` (amended): for every collection,
every `k` and every index list: when `k` exceeds the current size,
`pick` fails with InsufficientSupply whatever the index list — the
source checks the shortage before `random.sample` is ever called — and
(being a pure failure) leaves the collection unmodified; when
`k ≤ size`, with the index list supplied by `random.sample` (distinct,
in-range, of length `k`), `pick` succeeds, returns exactly `k` elements,
shrinks the collection by exactly `k`, and the remainder plus the
result is a permutation of the original collection — so when the
collection has no duplicate entries, each returned element is no longer
in the collection. -/
theorem pick_spec (data : List Location) (k : Nat) (indexes : List Nat) :
    (data.length < k →
      Locations.pick data k indexes =
        .error (.insufficientSupply k data.length)) ∧
    (k ≤ data.length → indexes.length = k → indexes.Nodup →
      (∀ i ∈ indexes, i < data.length) →
      Locations.pick data k indexes =
        .ok (indexes.map fun i => data.getD i default,
          (indexes.insertionSort (· ≥ ·)).foldl (fun d i => d.eraseIdx i)
            data) ∧
      (indexes.map fun i => data.getD i default).length = k ∧
      ((indexes.insertionSort (· ≥ ·)).foldl (fun d i => d.eraseIdx i)
          data).length = data.length - k ∧
      (((indexes.insertionSort (· ≥ ·)).foldl (fun d i => d.eraseIdx i)
          data) ++ indexes.map fun i => data.getD i default).Perm data ∧
      (data.Nodup → ∀ loc ∈ indexes.map fun i => data.getD i default,
        loc ∉ (indexes.insertionSort (· ≥ ·)).foldl
          (fun d i => d.eraseIdx i) data)) := by
  constructor
  · intro hk
    unfold Locations.pick
    rw [if_pos (by omega)]
  · intro hk hlen hnd hbnd
    have hpermJ : (indexes.insertionSort (· ≥ ·)).Perm indexes :=
      List.perm_insertionSort _ indexes
    have hpwJ : (indexes.insertionSort (· ≥ ·)).Pairwise (· > ·) := by
      have h1 : (indexes.insertionSort (· ≥ ·)).Pairwise (· ≥ ·) :=
        List.sorted_insertionSort _ indexes
      have h2 : (indexes.insertionSort (· ≥ ·)).Nodup :=
        (hpermJ.nodup_iff).mpr hnd
      exact (h1.and h2).imp fun hab => lt_of_le_of_ne hab.1 (Ne.symm hab.2)
    have hbndJ : ∀ i ∈ indexes.insertionSort (· ≥ ·), i < data.length :=
      fun i hi => hbnd i (hpermJ.mem_iff.mp hi)
    obtain ⟨hflen, hfperm⟩ := foldl_eraseIdx_spec _ data hpwJ hbndJ
    have hJlen : (indexes.insertionSort (· ≥ ·)).length = k := by
      rw [hpermJ.length_eq, hlen]
    have hok : Locations.pick data k indexes =
        .ok (indexes.map fun i => data.getD i default,
          (indexes.insertionSort (· ≥ ·)).foldl (fun d i => d.eraseIdx i)
            data) := by
      unfold Locations.pick
      rw [if_neg (by omega)]
    have hperm : (((indexes.insertionSort (· ≥ ·)).foldl
          (fun d i => d.eraseIdx i) data) ++
        indexes.map fun i => data.getD i default).Perm data := by
      refine List.Perm.trans ?_ hfperm
      exact List.Perm.append_left _ ((hpermJ.map _).symm)
    refine ⟨hok, by simp [hlen], by omega, hperm, ?_⟩
    intro hdnd loc hres hrest
    have hn : (((indexes.insertionSort (· ≥ ·)).foldl
          (fun d i => d.eraseIdx i) data) ++
        indexes.map fun i => data.getD i default).Nodup :=
      (hperm.nodup_iff).mpr hdnd
    obtain ⟨-, -, hdisj⟩ := List.nodup_append.mp hn
    exact hdisj hrest hres

/-- The claim "each returned element is no longer in the collection
afterwards" is false for a collection with duplicate entries: the
two-element collection `[locA, locA]` with `k = 1` returns `[locA]` and
keeps an equal `locA` retrievable, whichever of the two possible index
samples `random.sample` produced. -/
theorem pick_duplicate_counterexample :
    Locations.pick [locA, locA] 1 [0] = .ok ([locA], [locA]) ∧
    Locations.pick [locA, locA] 1 [1] = .ok ([locA], [locA]) ∧
    locA ∈ [locA] := by
  exact ⟨by decide, by decide, by decide⟩

/-- Witness for `pick_spec`: drawing both elements of a two-element
collection (sample `[1, 0]`) returns them and empties the collection;
asking a one-element collection for two locations fails with
InsufficientSupply. -/
theorem pick_spec_witness :
    Locations.pick [locA, locB] 2 [1, 0] =
      .ok ([1, 0].map fun i => [locA, locB].getD i default,
        ([1, 0].insertionSort (· ≥ ·)).foldl (fun d i => d.eraseIdx i)
          [locA, locB]) ∧
    ((([1, 0].insertionSort (· ≥ ·)).foldl (fun d i => d.eraseIdx i)
        [locA, locB]) ++ [1, 0].map fun i => [locA, locB].getD i default).Perm
      [locA, locB] ∧
    Locations.pick [locA] 2 [] = .error (.insufficientSupply 2 1) := by
  have h := (pick_spec [locA, locB] 2 [1, 0]).2 (by decide) (by decide)
    (by decide) (by decide)
  have herr := (pick_spec [locA] 2 []).1 (by decide)
  exact ⟨h.1, h.2.2.2.1, herr⟩

/-! ## Claim theorems: game construction (`Game.__init__`) -/

/-- Evaluation of `Game.__init__` at a failing input: with the default
options, one player and an empty deck, the center draw raises
InsufficientSupply inside the constructor's `try`, the `except
ValueError` clause only logs ("retrying") and the unconditional `break`
exits the loop — so no exception propagates to the caller, and the
constructor returns an object whose `board` and `players` attributes
were never assigned, rather than failing construction. -/
theorem construct_swallows_insufficient_supply :
    constructGame {} ["A"] [] [] [] = .made ⟨{}, [], 0, 0, none, none⟩ := by
  decide

/-! ## Claim theorems: `Game.place` non-atomicity on NotInHand -/

/-- `Game.place` is not atomic on the NotInHand error: when the current
player plays a location that is not in their hand, at an in-bounds empty
cell whose placement causes no invariant violation, the call raises
NotInHand only after `board.try_place` has already committed — the
outcome is an error state whose board holds the location at `(x, y)`
while players (hands and placed counters), deck, turn and round counter
are all unchanged. -/
theorem place_not_in_hand_commits_board (g : Game) (pIdx : Nat)
    (loc : Location) (x y : Int) (samples : List (List Nat))
    (hwf : g.board.WF) (hp : pIdx < g.players.length) (ht : pIdx = g.turn)
    (hhand : loc ∉ (g.players.getD pIdx default).hand)
    (h0 : 0 ≤ x) (h1 : x < g.board.opts.size) (h2 : 0 ≤ y)
    (h3 : y < g.board.opts.size)
    (hempty : g.board.cell x.toNat y.toNat = none)
    (hnil : (g.board.setCell x.toNat y.toNat (some loc)).violations = []) :
    g.place pIdx loc x y samples =
      .err { g with board := g.board.setCell x.toNat y.toNat (some loc) }
        (.notInHand loc (g.players.getD pIdx default).name) ∧
    (g.board.setCell x.toNat y.toNat (some loc)).cell x.toNat y.toNat =
      some loc := by
  have hx : x.toNat < g.board.grid.length := by
    obtain ⟨hlen, -⟩ := hwf
    omega
  have hy : y.toNat < (g.board.grid.getD x.toNat []).length := by
    rw [Board.WF.col_length g.board hwf x.toNat (by omega)]
    omega
  constructor
  · simp only [Game.place,
      Board.try_place_clean g.board loc x y h0 h1 h2 h3 hempty hnil,
      Player.play, if_neg hhand]
    rw [if_neg (not_not_intro ⟨hp, ht⟩)]
  · exact Board.cell_setCell_self g.board _ _ _ hx hy

/-- Witness for `place_not_in_hand_commits_board`: in `gHold` the
current player holds only `locA`; playing `locC` at the empty clean cell
`(0, 1)` raises NotInHand with the board already holding `locC`. -/
theorem place_not_in_hand_witness :
    gHold.place 0 locC 0 1 [] =
      .err { gHold with board := b3.setCell 0 1 (some locC) }
        (.notInHand locC "P1") := by
  have h := place_not_in_hand_commits_board gHold 0 locC 0 1 []
    (by decide) (by decide) (by decide) (by decide) (by decide) (by decide)
    (by decide) (by decide) (by decide) (by decide)
  exact h.1

end Mappazzone
